import Mathlib

/-!
Verification of the UFDR-Mounter virtual filesystem engine.

The development shallowly embeds the two FUSE filesystem classes of the
repository, `UFDRMount` (ufdr_mount.py) and `ZipFS` (mount.py):

* Python `str` values are modelled as `List Char` (`PyStr`); byte strings as
  `List Nat` (`Bytes`).
* The ZIP collaborator (module `zipfile`) is abstracted per the specification:
  an archive is a list of entries carrying a name and uncompressed content;
  `infolist` order is the entry-list order, `ZipFile.open(name)` resolves a
  name to the last entry bearing it (Python builds `NameToInfo` by letting
  later entries overwrite earlier ones), and an entry reports
  `file_size = len(content)`.
* Python `dict` is modelled as an association list with replace-or-append
  insertion and first-match lookup (keys stay unique); Python `set` as a list
  with membership-guarded insertion.
* `FuseOSError(errno.X)` and `RuntimeError` are modelled with `Except`.

Every definition is translated line by line from the source; see the doc
comment on each one for the Python location it embeds.
-/

/-- A byte of the container file. -/
abbrev Byte := Nat

/-- A byte string (Python `bytes`). -/
abbrev Bytes := List Byte

/-- A Python string, modelled as its character sequence. -/
abbrev PyStr := List Char

/-- Conversion from a Lean string literal to the `PyStr` model. -/
def pstr (s : String) : PyStr := s.data

/-- Python `s.rstrip(c)` for a single-character argument: drop every trailing
occurrence of `c`. -/
def pyRstrip (c : Char) (s : PyStr) : PyStr :=
  (s.reverse.dropWhile (fun x => x == c)).reverse

/-- Python `s.lstrip(c)` for a single-character argument: drop every leading
occurrence of `c`. -/
def pyLstrip (c : Char) (s : PyStr) : PyStr :=
  s.dropWhile (fun x => x == c)

/-- Python `s.strip(c)` for a single-character argument: drop every leading
and trailing occurrence of `c`. -/
def pyStrip (c : Char) (s : PyStr) : PyStr :=
  pyRstrip c (pyLstrip c s)

/-- Python `s.split(c)` for a single-character separator: split at every
occurrence, keeping empty pieces (`"".split(c) == [""]`). -/
def pySplit (c : Char) : PyStr → List PyStr
  | [] => [[]]
  | x :: xs =>
    if x = c then [] :: pySplit c xs
    else
      match pySplit c xs with
      | r :: rs => (x :: r) :: rs
      | [] => [[x]]

/-- One record of the archive entry list (the abstraction of
`zipfile.ZipInfo` together with the entry content reachable through
`ZipFile.open`): `filename` is the archive-relative name, `content` the
uncompressed bytes; `file_size` is reported as `content.length`. -/
structure Entry where
  filename : PyStr
  content : Bytes
deriving DecidableEq

/-- Declared uncompressed size of an entry (`ZipInfo.file_size`). -/
def Entry.file_size (e : Entry) : Nat := e.content.length

/-- `ZipInfo.is_dir() or info.filename.endswith("/")` (ufdr_mount.py line 95);
CPython defines `is_dir` itself as the name ending in a slash, so the test is
exactly that the name ends in `/`. -/
def isDirEntry (e : Entry) : Prop := e.filename.getLast? = some '/'

instance (e : Entry) : Decidable (isDirEntry e) := by
  unfold isDirEntry; infer_instance

/-- One value of the `self.files_info` dict (ufdr_mount.py lines 101-105 and
110-115): the entry name inside the ZIP (`none` for the injected metadata
pseudo-file), the reported size, and the `is_metadata` marker.  The
`mtime` field of the source carries no claim and is omitted. -/
structure FileInfo where
  filename : Option PyStr
  size : Nat
  is_metadata : Bool
deriving DecidableEq

/-- Python dict insertion `d[k] = v`: replace the value at an existing key,
else append the pair. -/
def dictInsert : List (PyStr × FileInfo) → PyStr → FileInfo → List (PyStr × FileInfo)
  | [], k, v => [(k, v)]
  | (k', v') :: d, k, v =>
    if k' = k then (k, v) :: d else (k', v') :: dictInsert d k v

/-- Python dict lookup `d.get(k)`: first (unique) matching key. -/
def dictGet : List (PyStr × FileInfo) → PyStr → Option FileInfo
  | [], _ => none
  | (k', v') :: d, k => if k' = k then some v' else dictGet d k

/-- Python `set.add`: insert unless already present. -/
def setAdd (s : List PyStr) (x : PyStr) : List PyStr :=
  if x ∈ s then s else s ++ [x]

/-- The mount state built by `UFDRMount.__init__`/`_parse_ufdr`
(ufdr_mount.py lines 53-56): the discovered ZIP offset, the metadata bytes,
the `files_info` dict, the `dirs` set, and the archive entry list (standing
for the ZIP region of the container, re-opened by every read). -/
structure UFDRState where
  zip_offset : Nat
  xml_data : Bytes
  files_info : List (PyStr × FileInfo)
  dirs : List PyStr
  entries : List Entry
deriving DecidableEq

/-- Construction failure (`RuntimeError` in `_parse_ufdr`). -/
inductive ParseErr where
  | noZipSignature
deriving DecidableEq

/-- Errno values carried by `FuseOSError` (plus the codes the specification
names for claims): `enoent` (NotFound), `eacces` (ReadOnlyViolation),
`eisdir` (IsADirectory), `eio` (I/O-class failure). -/
inductive Errno where
  | enoent
  | eacces
  | eisdir
  | eio
deriving DecidableEq

/-- The ZIP local-file-header signature `b"PK\x03\x04"`
(ufdr_mount.py line 71). -/
def zipSig : Bytes := [80, 75, 3, 4]

/-- Python `bytes.find(sig)` restricted to a non-empty needle: index of the
first position where `sig` occurs as a contiguous block, else `none`. -/
def findFrom (sig : Bytes) : Bytes → Option Nat
  | [] => if sig.isPrefixOf [] = true then some 0 else none
  | b :: t =>
    if sig.isPrefixOf (b :: t) = true then some 0
    else (findFrom sig t).map (fun i => i + 1)

/-- The cumulative prefixes built by the loop of `_ensure_parents`
(ufdr_mount.py lines 122-125): from `init` and segments `p1, p2, ...` produce
`init/p1`, `init/p1/p2`, ... . -/
def cumPaths (init : PyStr) : List PyStr → List PyStr
  | [] => []
  | part :: rest =>
    let cum := init ++ '/' :: part
    cum :: cumPaths cum rest

/-- The directory paths registered by `UFDRMount._ensure_parents(path)`
(ufdr_mount.py lines 119-125): split the stripped path on `/` and take every
cumulative proper prefix, skipping the final segment (the file name). -/
def parentPaths (path : PyStr) : List PyStr :=
  cumPaths [] ((pySplit '/' (pyStrip '/' path)).dropLast)

/-- `_ensure_parents` effect on the `dirs` set: add each parent path. -/
def ensureParents (path : PyStr) (dirs : List PyStr) : List PyStr :=
  (parentPaths path).foldl setAdd dirs

/-- One step of the entry loop of `_parse_ufdr` (lines 93-107), its effect on
`self.dirs`: a directory entry registers its stripped path, a file entry
registers its parents. -/
def stepDir (dirs : List PyStr) (e : Entry) : List PyStr :=
  if isDirEntry e then setAdd dirs ('/' :: pyRstrip '/' e.filename)
  else ensureParents ('/' :: e.filename) dirs

/-- The record stored in `files_info` for a ZIP file entry
(ufdr_mount.py lines 101-105). -/
def mkRec (e : Entry) : FileInfo :=
  { filename := some e.filename, size := e.content.length, is_metadata := false }

/-- One step of the entry loop of `_parse_ufdr`, its effect on
`self.files_info`: a file entry is stored under its absolute virtual path. -/
def stepFile (files : List (PyStr × FileInfo)) (e : Entry) : List (PyStr × FileInfo) :=
  if isDirEntry e then files
  else dictInsert files ('/' :: e.filename) (mkRec e)

/-- The `dirs` set after the whole entry loop: the loop starts from
`{"/"}` (line 92). -/
def buildDirs (entries : List Entry) : List PyStr :=
  entries.foldl stepDir [pstr "/"]

/-- The `files_info` dict after the whole entry loop (before the metadata
injection of lines 110-115). -/
def buildFiles (entries : List Entry) : List (PyStr × FileInfo) :=
  entries.foldl stepFile []

/-- The virtual path of the injected metadata pseudo-file. -/
def metadataPath : PyStr := pstr "/metadata.xml"

/-- `UFDRMount._parse_ufdr` (ufdr_mount.py lines 61-117): read the first
16384 bytes, find the ZIP signature (failing with `RuntimeError` when
absent), keep the bytes before it as `xml_data`, index the archive entries,
and finally inject the `/metadata.xml` pseudo-file record. -/
def parseUFDR (container : Bytes) (entries : List Entry) : Except ParseErr UFDRState :=
  match findFrom zipSig (container.take 16384) with
  | none => .error .noZipSignature
  | some off =>
    .ok { zip_offset := off
          xml_data := (container.take 16384).take off
          files_info := dictInsert (buildFiles entries) metadataPath
            { filename := none, size := ((container.take 16384).take off).length,
              is_metadata := true }
          dirs := buildDirs entries
          entries := entries }

/-- The stat record returned by the getattr helpers; only the fields the
claims mention (`st_mode`, `st_size`) are carried, the remaining fields of
the source (`uid`, `gid`, `nlink`, times) are constants independent of the
queried object. -/
structure Stat where
  mode : Nat
  size : Nat
deriving DecidableEq

/-- `UFDRMount._make_file_stat(size)` (lines 227-245): a read-only regular
file, `st_mode = 0o100444`. -/
def mkFileStat (size : Nat) : Stat := { mode := 0o100444, size := size }

/-- `UFDRMount._make_dir_stat()` (lines 247-263): a read-and-execute
directory, `st_mode = 0o040555`. -/
def mkDirStat : Stat := { mode := 0o040555, size := 0 }

/-- `UFDRMount.getattr` (ufdr_mount.py lines 129-151): root and members of
`dirs` are directories, keys of `files_info` are files, anything else is
`ENOENT`. -/
def getattr (st : UFDRState) (path : PyStr) : Except Errno Stat :=
  if path = pstr "/" then .ok mkDirStat
  else if path ∈ st.dirs then .ok mkDirStat
  else
    match dictGet st.files_info path with
    | some fi => .ok (mkFileStat fi.size)
    | none => .error .enoent

instance {ε α : Type} [DecidableEq ε] [DecidableEq α] : DecidableEq (Except ε α) := fun x y =>
  match x, y with
  | .ok a, .ok b =>
    match decEq a b with
    | isTrue h => isTrue (congrArg Except.ok h)
    | isFalse h => isFalse (fun hc => h (Except.ok.inj hc))
  | .error a, .error b =>
    match decEq a b with
    | isTrue h => isTrue (congrArg Except.error h)
    | isFalse h => isFalse (fun hc => h (Except.error.inj hc))
  | .ok _, .error _ => isFalse (fun hc => Except.noConfusion hc)
  | .error _, .ok _ => isFalse (fun hc => Except.noConfusion hc)

/-- Python string comparison `a <= b`: lexicographic on code points. -/
def ple : PyStr → PyStr → Bool
  | [], _ => true
  | _ :: _, [] => false
  | a :: s1, b :: s2 => if a < b then true else if b < a then false else ple s1 s2

/-- Insertion step of an ascending sort by `ple`. -/
def insertSorted (x : PyStr) : List PyStr → List PyStr
  | [] => [x]
  | y :: ys => if ple x y = true then x :: y :: ys else y :: insertSorted x ys

/-- Ascending insertion sort by `ple`; models Python `sorted` on strings
up to the order of equal elements (the claims only use membership). -/
def pySort : List PyStr → List PyStr
  | [] => []
  | x :: xs => insertSorted x (pySort xs)

/-- Python `sorted(set(l))`: the distinct elements of `l` in ascending
order. -/
def pySortedSet (l : List PyStr) : List PyStr := pySort l.dedup

/-- The `prefix` variable of `UFDRMount.readdir` (lines 164-166): the queried
path with a trailing slash appended unless already present. -/
def dirPre (path : PyStr) : PyStr :=
  if path.getLast? = some '/' then path else path ++ ['/']

/-- One traversal of the `readdir` loops (lines 170-183): of every stored
path starting with the `pre` prefix and different from the queried path, keep
the remainder after the prefix when it holds no further slash. -/
def childNames (paths : List PyStr) (path pre : PyStr) : List PyStr :=
  paths.filterMap fun d =>
    if pre.isPrefixOf d = true ∧ d ≠ path then
      if (d.drop pre.length).contains '/' = true then none else some (d.drop pre.length)
    else none

/-- `UFDRMount.readdir` (ufdr_mount.py lines 153-185): `"."` and `".."`,
the direct child names drawn from `dirs` and from the keys of `files_info`,
returned as `sorted(set(...))`. -/
def readdir (st : UFDRState) (path : PyStr) : List PyStr :=
  pySortedSet (pstr "." :: pstr ".." ::
    (childNames st.dirs path (dirPre path) ++
     childNames (st.files_info.map Prod.fst) path (dirPre path)))

/-- `zipfile.ZipFile.getinfo` name resolution: the `NameToInfo` dict is built
by iterating the entry list with later entries overwriting earlier ones, so a
name resolves to the last entry bearing it. -/
def lastEntryNamed (fname : PyStr) : List Entry → Option Entry
  | [] => none
  | e :: rest =>
    match lastEntryNamed fname rest with
    | some e' => some e'
    | none => if e.filename = fname then some e else none

/-- `UFDRMount._read_from_zip` (ufdr_mount.py lines 206-215): reopen the
container at the ZIP offset, open the entry by its recorded name, skip
`offset` bytes of the decompressed stream, then read up to `size` bytes.  The
name always resolves for states built by `_parse_ufdr`; the unreachable miss
(a `KeyError` in Python) is modelled as an I/O-class failure. -/
def readFromZip (st : UFDRState) (fname : PyStr) (size offset : Nat) : Except Errno Bytes :=
  match lastEntryNamed fname st.entries with
  | some e => .ok ((e.content.drop offset).take size)
  | none => .error .eio

/-- `UFDRMount.read` (ufdr_mount.py lines 187-204): a `files_info` record
with the `is_metadata` marker is served from the held `xml_data` buffer by
Python slicing `xml_data[offset : offset + size]`; a record with a ZIP name
is served by `_read_from_zip`; every other path raises `ENOENT`. -/
def fsRead (st : UFDRState) (path : PyStr) (size offset : Nat) : Except Errno Bytes :=
  match dictGet st.files_info path with
  | some fi =>
    if fi.is_metadata then .ok ((st.xml_data.drop offset).take size)
    else
      match fi.filename with
      | some fname => readFromZip st fname size offset
      | none => .error .enoent
  | none => .error .enoent

/-- `UFDRMount.read` seen as a state transformer: the method body assigns no
attribute of `self` (it only opens transient handles on the container), so it
returns the mount state unchanged next to its result. -/
def readCall (st : UFDRState) (c : PyStr × Nat × Nat) : Except Errno Bytes × UFDRState :=
  (fsRead st c.1 c.2.1 c.2.2, st)

/-- The backing byte sequence of a `files_info` record: the held metadata
buffer for the pseudo-file, else the content of the archive entry its name
resolves to. -/
def fileBytes (st : UFDRState) (fi : FileInfo) : Bytes :=
  if fi.is_metadata then st.xml_data
  else
    match fi.filename with
    | some fname =>
      match lastEntryNamed fname st.entries with
      | some e => e.content
      | none => []
    | none => []

/-- The last file entry of the list whose absolute virtual path is `p`; by
Python dict semantics this is the record `buildFiles` leaves at key `p`. -/
def lastFileEntry (p : PyStr) : List Entry → Option Entry
  | [] => none
  | e :: rest =>
    match lastFileEntry p rest with
    | some e' => some e'
    | none => if ¬isDirEntry e ∧ '/' :: e.filename = p then some e else none

/-- `UFDRMount.open` (ufdr_mount.py lines 217-223): any path present in
`files_info` or `dirs` yields the dummy handle `0`, anything else `ENOENT`;
the `flags` argument is never inspected. -/
def ufdrOpen (st : UFDRState) (path : PyStr) (_flags : Nat) : Except Errno Nat :=
  if (dictGet st.files_info path).isSome ∨ path ∈ st.dirs then .ok 0
  else .error .enoent

/-- `os.O_WRONLY`. -/
def O_WRONLY : Nat := 1

/-- `os.O_RDWR`. -/
def O_RDWR : Nat := 2

/-- The file-name table of `ZipFS` (mount.py line 13): `self.files` maps each
entry name to its info; only key membership and sizes are consulted. -/
structure ZipFSState where
  files : List (PyStr × Nat)
deriving DecidableEq

/-- `ZipFS.open` (mount.py lines 67-73): write-intent flags fail with
`EACCES` before any path inspection; otherwise the path stripped of leading
slashes must be a known entry name. -/
def zipfsOpen (z : ZipFSState) (path : PyStr) (flags : Nat) : Except Errno Nat :=
  if flags &&& (O_WRONLY ||| O_RDWR) ≠ 0 then .error .eacces
  else if (pyLstrip '/' path) ∈ z.files.map Prod.fst then .ok 0
  else .error .enoent

/-- Container fixture: three metadata bytes, then the ZIP signature. -/
def testC : Bytes := [1, 2, 3] ++ zipSig

/-- Archive fixture with entries `a/b.txt` and `c.txt`. -/
def testE : List Entry := [⟨pstr "a/b.txt", [104, 105]⟩, ⟨pstr "c.txt", [99]⟩]

/-- The mount state `_parse_ufdr` builds from `testC` and `testE`. -/
def testState : UFDRState :=
  ⟨3, [1, 2, 3],
   [(pstr "/a/b.txt", ⟨some (pstr "a/b.txt"), 2, false⟩),
    (pstr "/c.txt", ⟨some (pstr "c.txt"), 1, false⟩),
    (metadataPath, ⟨none, 3, true⟩)],
   [pstr "/", pstr "/a"], testE⟩

/-- Container fixture for the conflict scenario: the signature at offset 0. -/
def c1C : Bytes := [80, 75, 3, 4]

/-- Archive fixture declaring `a` both as a file and (through the parent of
`a/b.txt`) as a directory. -/
def c1E : List Entry := [⟨pstr "a", [104]⟩, ⟨pstr "a/b.txt", [104, 105]⟩]

/-- The mount state `_parse_ufdr` builds from `c1C` and `c1E`: `/a` ends up
in the file map and in the directory set at once. -/
def c1State : UFDRState :=
  ⟨0, [],
   [(pstr "/a", ⟨some (pstr "a"), 1, false⟩),
    (pstr "/a/b.txt", ⟨some (pstr "a/b.txt"), 2, false⟩),
    (metadataPath, ⟨none, 0, true⟩)],
   [pstr "/", pstr "/a"], c1E⟩

/-- Archive fixture whose single entry is a file named `metadata.xml`. -/
def mdE : List Entry := [⟨pstr "metadata.xml", [7, 7, 7, 7, 7]⟩]

/-- The mount state `_parse_ufdr` builds from `testC` and `mdE`: the archive
record at key `/metadata.xml` is overwritten by the injected pseudo-file. -/
def mdState : UFDRState :=
  ⟨3, [1, 2, 3], [(metadataPath, ⟨none, 3, true⟩)], [pstr "/"], mdE⟩

/-- The ZIP signature occurs (in full) at offset `i` of the 16384-byte
lookahead window of container `c`. -/
def sigWithin (c : Bytes) (i : Nat) : Prop :=
  zipSig <+: (c.take 16384).drop i

instance (c : Bytes) (i : Nat) : Decidable (sigWithin c i) := by
  unfold sigWithin; infer_instance

/-! ### Dictionary and set lemmas -/

theorem dictGet_insert_self (d : List (PyStr × FileInfo)) (k : PyStr) (v : FileInfo) :
    dictGet (dictInsert d k v) k = some v := by
  induction d with
  | nil => simp [dictInsert, dictGet]
  | cons p d ih =>
    obtain ⟨k1, v1⟩ := p
    by_cases h : k1 = k
    · simp [dictInsert, h, dictGet]
    · simp [dictInsert, h, dictGet, ih]

theorem dictGet_insert_ne (d : List (PyStr × FileInfo)) (k : PyStr) (v : FileInfo)
    (q : PyStr) (h : q ≠ k) : dictGet (dictInsert d k v) q = dictGet d q := by
  induction d with
  | nil => simp [dictInsert, dictGet, Ne.symm h]
  | cons p d ih =>
    obtain ⟨k1, v1⟩ := p
    by_cases h1 : k1 = k
    · subst h1
      simp [dictInsert, dictGet, Ne.symm h]
    · simp [dictInsert, h1, dictGet, ih]

theorem mem_setAdd {s : List PyStr} {x y : PyStr} : y ∈ setAdd s x ↔ y = x ∨ y ∈ s := by
  unfold setAdd
  by_cases h : x ∈ s
  · rw [if_pos h]
    constructor
    · exact Or.inr
    · rintro (rfl | hy)
      · exact h
      · exact hy
  · rw [if_neg h]
    simp [List.mem_append, or_comm]

theorem mem_foldl_setAdd_of_mem (ps : List PyStr) (s : List PyStr) (y : PyStr)
    (h : y ∈ s) : y ∈ ps.foldl setAdd s := by
  induction ps generalizing s with
  | nil => exact h
  | cons p ps ih => exact ih (setAdd s p) (mem_setAdd.2 (Or.inr h))

theorem mem_foldl_setAdd_of_mem_list (ps : List PyStr) (s : List PyStr) (y : PyStr)
    (h : y ∈ ps) : y ∈ ps.foldl setAdd s := by
  induction ps generalizing s with
  | nil => cases h
  | cons p ps ih =>
    rcases List.mem_cons.1 h with rfl | hy
    · exact mem_foldl_setAdd_of_mem ps (setAdd s y) y (mem_setAdd.2 (Or.inl rfl))
    · exact ih (setAdd s p) hy

/-! ### Directory-set construction lemmas -/

theorem mem_stepDir_of_mem {dirs : List PyStr} {e : Entry} {y : PyStr}
    (h : y ∈ dirs) : y ∈ stepDir dirs e := by
  unfold stepDir
  by_cases hd : isDirEntry e
  · rw [if_pos hd]; exact mem_setAdd.2 (Or.inr h)
  · rw [if_neg hd]
    exact mem_foldl_setAdd_of_mem _ _ _ h

theorem mem_foldl_stepDir_of_mem (l : List Entry) (acc : List PyStr) (y : PyStr)
    (h : y ∈ acc) : y ∈ l.foldl stepDir acc := by
  induction l generalizing acc with
  | nil => exact h
  | cons e l ih => exact ih (stepDir acc e) (mem_stepDir_of_mem h)

theorem root_mem_buildDirs (entries : List Entry) : pstr "/" ∈ buildDirs entries :=
  mem_foldl_stepDir_of_mem entries [pstr "/"] (pstr "/") (List.mem_singleton.2 rfl)

theorem parent_mem_foldl_stepDir (l : List Entry) (acc : List PyStr) (e : Entry)
    (he : e ∈ l) (hf : ¬isDirEntry e) (q : PyStr)
    (hq : q ∈ parentPaths ('/' :: e.filename)) : q ∈ l.foldl stepDir acc := by
  induction l generalizing acc with
  | nil => cases he
  | cons a l ih =>
    rw [List.foldl_cons]
    rcases List.mem_cons.1 he with rfl | he1
    · apply mem_foldl_stepDir_of_mem
      unfold stepDir
      rw [if_neg hf]
      exact mem_foldl_setAdd_of_mem_list _ _ _ hq
    · exact ih (stepDir acc a) he1

theorem parent_mem_buildDirs (entries : List Entry) (e : Entry) (he : e ∈ entries)
    (hf : ¬isDirEntry e) (q : PyStr) (hq : q ∈ parentPaths ('/' :: e.filename)) :
    q ∈ buildDirs entries :=
  parent_mem_foldl_stepDir entries [pstr "/"] e he hf q hq

/-! ### File-map construction lemmas -/

theorem dictGet_foldl_stepFile (l : List Entry) (acc : List (PyStr × FileInfo)) (p : PyStr) :
    dictGet (l.foldl stepFile acc) p =
      match lastFileEntry p l with
      | some e => some (mkRec e)
      | none => dictGet acc p := by
  induction l generalizing acc with
  | nil => rfl
  | cons e l ih =>
    rw [List.foldl_cons, ih]
    cases hl : lastFileEntry p l with
    | some e1 => simp only [lastFileEntry, hl]
    | none =>
      simp only [lastFileEntry, hl]
      by_cases hc : ¬isDirEntry e ∧ '/' :: e.filename = p
      · rw [if_pos hc]
        unfold stepFile
        rw [if_neg hc.1, ← hc.2]
        exact dictGet_insert_self ..
      · rw [if_neg hc]
        unfold stepFile
        by_cases hd : isDirEntry e
        · rw [if_pos hd]
        · rw [if_neg hd]
          refine dictGet_insert_ne _ _ _ _ ?_
          intro hpe
          exact hc ⟨hd, hpe.symm⟩

theorem buildFiles_lookup (entries : List Entry) (p : PyStr) :
    dictGet (buildFiles entries) p = (lastFileEntry p entries).map mkRec := by
  rw [buildFiles, dictGet_foldl_stepFile]
  cases lastFileEntry p entries <;> rfl

theorem lastFileEntry_spec (p : PyStr) (l : List Entry) (e : Entry)
    (h : lastFileEntry p l = some e) :
    e ∈ l ∧ ¬isDirEntry e ∧ '/' :: e.filename = p := by
  induction l with
  | nil => cases h
  | cons a l ih =>
    unfold lastFileEntry at h
    cases hl : lastFileEntry p l with
    | some e1 =>
      rw [hl] at h
      injection h with h
      subst h
      have hs := ih hl
      exact ⟨List.mem_cons_of_mem _ hs.1, hs.2⟩
    | none =>
      rw [hl] at h
      by_cases hc : ¬isDirEntry a ∧ '/' :: a.filename = p
      · rw [if_pos hc] at h
        injection h with h
        subst h
        exact ⟨List.mem_cons_self .., hc⟩
      · rw [if_neg hc] at h
        cases h

theorem lastEntryNamed_eq_lastFileEntry (fname : PyStr) (hf : fname.getLast? ≠ some '/')
    (l : List Entry) : lastEntryNamed fname l = lastFileEntry ('/' :: fname) l := by
  induction l with
  | nil => rfl
  | cons e l ih =>
    unfold lastEntryNamed lastFileEntry
    rw [ih]
    cases lastFileEntry ('/' :: fname) l with
    | some e1 => rfl
    | none =>
      by_cases hc : e.filename = fname
      · rw [if_pos hc, if_pos]
        refine ⟨?_, by rw [hc]⟩
        unfold isDirEntry
        rw [hc]
        exact hf
      · rw [if_neg hc, if_neg]
        intro h
        injection h.2 with h1 h2
        exact hc h2

/-! ### Parse inversion and the file-record invariant -/

theorem parseUFDR_ok {c : Bytes} {e : List Entry} {st : UFDRState}
    (h : parseUFDR c e = .ok st) :
    findFrom zipSig (c.take 16384) = some st.zip_offset ∧
    st.xml_data = (c.take 16384).take st.zip_offset ∧
    st.files_info = dictInsert (buildFiles e) metadataPath ⟨none, st.xml_data.length, true⟩ ∧
    st.dirs = buildDirs e ∧
    st.entries = e := by
  unfold parseUFDR at h
  cases hf : findFrom zipSig (c.take 16384) with
  | none => rw [hf] at h; cases h
  | some off =>
    rw [hf] at h
    have h2 := Except.ok.inj h
    subst h2
    exact ⟨rfl, rfl, rfl, rfl, rfl⟩

theorem files_info_inv {c : Bytes} {e : List Entry} {st : UFDRState}
    (h : parseUFDR c e = .ok st) {p : PyStr} {fi : FileInfo}
    (hg : dictGet st.files_info p = some fi) :
    (fi.is_metadata = true ∧ fi.filename = none ∧ fi.size = st.xml_data.length
      ∧ p = metadataPath) ∨
    (fi.is_metadata = false ∧ ∃ fn en, fi.filename = some fn ∧
      lastEntryNamed fn st.entries = some en ∧ en.content.length = fi.size ∧
      p = '/' :: fn) := by
  obtain ⟨hf, hx, hfi, hd, he⟩ := parseUFDR_ok h
  rw [hfi] at hg
  by_cases hp : p = metadataPath
  · subst hp
    rw [dictGet_insert_self] at hg
    injection hg with hg
    subst hg
    exact Or.inl ⟨rfl, rfl, rfl, rfl⟩
  · rw [dictGet_insert_ne _ _ _ _ hp, buildFiles_lookup] at hg
    cases hl : lastFileEntry p e with
    | none => rw [hl] at hg; cases hg
    | some en =>
      rw [hl] at hg
      injection hg with hg
      subst hg
      obtain ⟨hmem, hdir, hpath⟩ := lastFileEntry_spec p e en hl
      refine Or.inr ⟨rfl, en.filename, en, rfl, ?_, rfl, hpath.symm⟩
      rw [he, lastEntryNamed_eq_lastFileEntry en.filename hdir e, hpath]
      exact hl

/-! ### Signature-scan lemmas -/

theorem findFrom_none {sig hay : Bytes} (h : findFrom sig hay = none) :
    ∀ i, ¬ sig <+: hay.drop i := by
  induction hay with
  | nil =>
    intro i hp
    unfold findFrom at h
    rw [List.drop_nil] at hp
    rw [if_pos (List.isPrefixOf_iff_prefix.2 hp)] at h
    cases h
  | cons b t ih =>
    intro i hp
    unfold findFrom at h
    by_cases hs : sig.isPrefixOf (b :: t) = true
    · rw [if_pos hs] at h; cases h
    · rw [if_neg hs] at h
      cases i with
      | zero =>
        rw [List.drop_zero] at hp
        exact hs (List.isPrefixOf_iff_prefix.2 hp)
      | succ i =>
        have ht : findFrom sig t = none := by
          cases hft : findFrom sig t with
          | none => rfl
          | some k => rw [hft] at h; cases h
        rw [List.drop_succ_cons] at hp
        exact ih ht i hp

theorem findFrom_some {sig hay : Bytes} {k : Nat} (h : findFrom sig hay = some k) :
    sig <+: hay.drop k ∧ ∀ j, sig <+: hay.drop j → k ≤ j := by
  induction hay generalizing k with
  | nil =>
    unfold findFrom at h
    by_cases hs : sig.isPrefixOf [] = true
    · rw [if_pos hs] at h
      injection h with h
      subst h
      exact ⟨List.isPrefixOf_iff_prefix.1 hs, fun j _ => Nat.zero_le j⟩
    · rw [if_neg hs] at h; cases h
  | cons b t ih =>
    unfold findFrom at h
    by_cases hs : sig.isPrefixOf (b :: t) = true
    · rw [if_pos hs] at h
      injection h with h
      subst h
      exact ⟨List.isPrefixOf_iff_prefix.1 hs, fun j _ => Nat.zero_le j⟩
    · rw [if_neg hs] at h
      cases hft : findFrom sig t with
      | none => rw [hft] at h; cases h
      | some k1 =>
        rw [hft] at h
        injection h with h
        subst h
        obtain ⟨h1, h2⟩ := ih hft
        refine ⟨by rw [List.drop_succ_cons]; exact h1, ?_⟩
        intro j hj
        cases j with
        | zero =>
          rw [List.drop_zero] at hj
          exact absurd (List.isPrefixOf_iff_prefix.2 hj) hs
        | succ j =>
          rw [List.drop_succ_cons] at hj
          exact Nat.succ_le_succ (h2 j hj)

/-! ### Sorting and de-duplication lemmas -/

theorem mem_insertSorted {x y : PyStr} {l : List PyStr} :
    y ∈ insertSorted x l ↔ y = x ∨ y ∈ l := by
  induction l with
  | nil => simp [insertSorted]
  | cons z zs ih =>
    unfold insertSorted
    by_cases h : ple x z = true
    · rw [if_pos h]
      simp [List.mem_cons]
    · rw [if_neg h]
      simp only [List.mem_cons, ih]
      tauto

theorem nodup_insertSorted {x : PyStr} {l : List PyStr} (h : l.Nodup) (hx : x ∉ l) :
    (insertSorted x l).Nodup := by
  induction l with
  | nil => simp [insertSorted]
  | cons z zs ih =>
    unfold insertSorted
    by_cases hp : ple x z = true
    · rw [if_pos hp]
      exact List.nodup_cons.2 ⟨hx, h⟩
    · rw [if_neg hp]
      refine List.nodup_cons.2 ⟨?_, ?_⟩
      · rw [mem_insertSorted]
        rintro (rfl | hzz)
        · exact hx (List.mem_cons_self ..)
        · exact (List.nodup_cons.1 h).1 hzz
      · exact ih (List.nodup_cons.1 h).2 (fun hm => hx (List.mem_cons_of_mem _ hm))

theorem mem_pySort {y : PyStr} {l : List PyStr} : y ∈ pySort l ↔ y ∈ l := by
  induction l with
  | nil => simp [pySort]
  | cons x xs ih =>
    unfold pySort
    rw [mem_insertSorted, ih, List.mem_cons]

theorem nodup_pySort {l : List PyStr} (h : l.Nodup) : (pySort l).Nodup := by
  induction l with
  | nil => simp [pySort]
  | cons x xs ih =>
    unfold pySort
    refine nodup_insertSorted (ih (List.nodup_cons.1 h).2) ?_
    rw [mem_pySort]
    exact (List.nodup_cons.1 h).1

theorem mem_pySortedSet {y : PyStr} {l : List PyStr} : y ∈ pySortedSet l ↔ y ∈ l := by
  rw [pySortedSet, mem_pySort, List.mem_dedup]

theorem nodup_pySortedSet (l : List PyStr) : (pySortedSet l).Nodup :=
  nodup_pySort (List.nodup_dedup l)

/-! ### Directory-listing lemmas -/

theorem mem_childNames {paths : List PyStr} {path pre n : PyStr} :
    n ∈ childNames paths path pre ↔
      pre ++ n ∈ paths ∧ pre ++ n ≠ path ∧ n.contains '/' = false := by
  unfold childNames
  rw [List.mem_filterMap]
  constructor
  · rintro ⟨d, hd, hf⟩
    by_cases h1 : pre.isPrefixOf d = true ∧ d ≠ path
    · rw [if_pos h1] at hf
      by_cases h2 : (d.drop pre.length).contains '/' = true
      · rw [if_pos h2] at hf; cases hf
      · rw [if_neg h2] at hf
        injection hf with hf
        obtain ⟨t, ht⟩ := List.isPrefixOf_iff_prefix.1 h1.1
        subst ht
        rw [List.drop_left] at hf h2
        subst hf
        exact ⟨hd, h1.2, Bool.not_eq_true _ ▸ eq_false_of_ne_true h2⟩
    · rw [if_neg h1] at hf; cases hf
  · rintro ⟨h1, h2, h3⟩
    refine ⟨pre ++ n, h1, ?_⟩
    rw [if_pos ⟨List.isPrefixOf_iff_prefix.2 (List.prefix_append pre n), h2⟩,
      List.drop_left, if_neg]
    rw [h3]
    exact Bool.false_ne_true

theorem mem_readdir {st : UFDRState} {path n : PyStr} :
    n ∈ readdir st path ↔
      n = pstr "." ∨ n = pstr ".." ∨
      (n.contains '/' = false ∧ dirPre path ++ n ≠ path ∧
        (dirPre path ++ n ∈ st.dirs ∨ dirPre path ++ n ∈ st.files_info.map Prod.fst)) := by
  unfold readdir
  rw [mem_pySortedSet]
  simp only [List.mem_cons, List.mem_append, mem_childNames]
  tauto

theorem nodup_readdir (st : UFDRState) (path : PyStr) : (readdir st path).Nodup :=
  nodup_pySortedSet _

/-! ### The range-read equation -/

theorem fsRead_eq_backing {c : Bytes} {e : List Entry} {st : UFDRState}
    (h : parseUFDR c e = .ok st) {p : PyStr} {fi : FileInfo}
    (hg : dictGet st.files_info p = some fi) (sz off : Nat) :
    fsRead st p sz off = .ok (((fileBytes st fi).drop off).take sz) := by
  rcases files_info_inv h hg with ⟨hm, hfn, hsz, hp⟩ | ⟨hm, fn, en, hfn, hle, hsz, hp⟩
  · unfold fsRead fileBytes
    simp [hg, hm]
  · unfold fsRead fileBytes readFromZip
    simp [hg, hm, hfn, hle]

/-! ### Claim C1 -/

/-- C1: the claim states that an entry list declaring a path both as a file
and as a directory makes index construction fail with `PathConflict`, and
that the file-path set and directory-path set of a built index never
overlap.  The code has no such check: on the fixture declaring `a` as a file
and, through the parent of `a/b.txt`, as a directory, `_parse_ufdr` succeeds
and leaves `/a` in `files_info` and in `dirs` at once (the specification
itself flags the missing check as a latent bug of the reference, so the code,
not the claim, is wrong). -/
theorem ufdr_c1_no_conflict_check :
    parseUFDR c1C c1E = .ok c1State ∧
    pstr "/a" ∈ c1State.dirs ∧
    dictGet c1State.files_info (pstr "/a") = some ⟨some (pstr "a"), 1, false⟩ ∧
    getattr c1State (pstr "/a") = .ok mkDirStat := by
  exact ⟨by decide, by decide, by decide, by decide⟩

/-! ### Claim C2 -/

/-- C2 counterexample: the claim states that every file entry resolves to
`File` with its declared size.  On the archive `[file "a", file "a/b.txt"]`
the file entry `a` (declared size 1) resolves to `Directory`: the directory
set is consulted first and the conflict is never rejected. -/
theorem ufdr_c2_counterexample :
    parseUFDR c1C c1E = .ok c1State ∧
    (⟨pstr "a", [104]⟩ : Entry) ∈ c1E ∧
    ¬isDirEntry (⟨pstr "a", [104]⟩ : Entry) ∧
    getattr c1State ('/' :: pstr "a") = .ok mkDirStat ∧
    (Except.ok mkDirStat : Except Errno Stat) ≠ .ok (mkFileStat 1) := by
  exact ⟨by decide, by decide, by decide, by decide, by decide⟩

/-- C2 (amended): in a state built by `_parse_ufdr`, a file entry resolves to
`File` with its declared uncompressed size provided its virtual path is not
also in the directory set, is not `/metadata.xml`, and the entry is the last
file entry bearing that path (Python dict assignment lets later duplicates
win); and for every file entry, the root and every proper path prefix of its
virtual path resolve to `Directory`, even when never declared explicitly. -/
theorem ufdr_c2_resolve (c : Bytes) (e : List Entry) (st : UFDRState)
    (h : parseUFDR c e = .ok st) :
    (∀ p en, lastFileEntry p e = some en → p ∉ st.dirs → p ≠ metadataPath →
      getattr st p = .ok (mkFileStat en.file_size)) ∧
    (∀ en, en ∈ e → ¬isDirEntry en →
      ∀ q, q ∈ pstr "/" :: parentPaths ('/' :: en.filename) →
        getattr st q = .ok mkDirStat) := by
  obtain ⟨hf, hx, hfi, hd, he⟩ := parseUFDR_ok h
  constructor
  · intro p en hl hpd hpm
    have hroot : pstr "/" ∈ st.dirs := by
      rw [hd]; exact root_mem_buildDirs e
    have hpr : p ≠ pstr "/" := fun hr => hpd (hr ▸ hroot)
    unfold getattr
    rw [if_neg hpr, if_neg hpd, hfi, dictGet_insert_ne _ _ _ _ hpm,
      buildFiles_lookup, hl]
    rfl
  · intro en hmem hdir q hq
    rcases List.mem_cons.1 hq with rfl | hq1
    · unfold getattr
      rw [if_pos rfl]
    · unfold getattr
      by_cases hr : q = pstr "/"
      · rw [if_pos hr]
      · rw [if_neg hr, if_pos]
        rw [hd]
        exact parent_mem_buildDirs e en hmem hdir q hq1

/-- Witness for C2: on the fixture archive, the file entry `c.txt` resolves
to a file of its declared size 1, and the inferred parent `/a` of
`a/b.txt` resolves to a directory. -/
theorem ufdr_c2_witness :
    getattr testState (pstr "/c.txt") = .ok (mkFileStat 1) ∧
    getattr testState (pstr "/a") = .ok mkDirStat := by
  have h := ufdr_c2_resolve testC testE testState (by decide)
  constructor
  · exact h.1 (pstr "/c.txt") ⟨pstr "c.txt", [99]⟩ (by decide) (by decide) (by decide)
  · exact h.2 ⟨pstr "a/b.txt", [104, 105]⟩ (by decide) (by decide) (pstr "/a") (by decide)

/-! ### Claim C3 -/

/-- C3: for every known file path of a built mount state — the metadata
pseudo-file or an archive-backed file — `read` returns exactly the backing
bytes from `offset`, truncated at end-of-file and to `size` bytes; it
succeeds even when `offset + size` exceeds the file size, and an offset at or
beyond end-of-file yields the empty result rather than an error. -/
theorem ufdr_c3_read_range (c : Bytes) (e : List Entry) (st : UFDRState)
    (h : parseUFDR c e = .ok st) (p : PyStr) (fi : FileInfo)
    (hg : dictGet st.files_info p = some fi) (sz off : Nat) :
    fsRead st p sz off = .ok (((fileBytes st fi).drop off).take sz) ∧
    ((fileBytes st fi).length ≤ off → fsRead st p sz off = .ok []) := by
  have hmain := fsRead_eq_backing h hg sz off
  refine ⟨hmain, fun hoff => ?_⟩
  rw [hmain, List.drop_eq_nil_of_le hoff, List.take_nil]

/-- Witness for C3: on the fixture archive, reading `a/b.txt` (2 bytes) from
offset 1 with length 10 returns the single remaining byte, and reading the
3-byte metadata buffer from offset 7 returns the empty result. -/
theorem ufdr_c3_witness :
    fsRead testState (pstr "/a/b.txt") 10 1 =
      .ok (((fileBytes testState ⟨some (pstr "a/b.txt"), 2, false⟩).drop 1).take 10) ∧
    fsRead testState metadataPath 5 7 = .ok [] := by
  constructor
  · exact (ufdr_c3_read_range testC testE testState (by decide)
      (pstr "/a/b.txt") ⟨some (pstr "a/b.txt"), 2, false⟩ (by decide) 10 1).1
  · exact (ufdr_c3_read_range testC testE testState (by decide)
      metadataPath ⟨none, 3, true⟩ (by decide) 5 7).2 (by decide)

/-! ### Claim C4 -/

/-- C4 counterexample: the claim states that listing the root of a container
whose archive entries are `a/b.txt` and `c.txt` yields exactly `a` and
`c.txt` besides the traversal pseudo-entries.  The injected `/metadata.xml`
pseudo-file is a key of the file map, so `metadata.xml` also appears. -/
theorem ufdr_c4_counterexample :
    parseUFDR testC testE = .ok testState ∧
    pstr "metadata.xml" ∈ readdir testState (pstr "/") ∧
    pstr "metadata.xml" ∉ [pstr ".", pstr "..", pstr "a", pstr "c.txt"] := by
  exact ⟨by decide, by decide, by decide⟩

/-- C4 (amended): for every mount state and path, `readdir` returns a
duplicate-free list holding `.`, `..`, and exactly the names one path
segment deeper than the path (no slash in the name) that appear in the
directory set or among the file-map keys, excluding the path itself; on the
container with archive entries `a/b.txt` and `c.txt`, listing the root
yields exactly `a`, `c.txt` and `metadata.xml` besides the traversal
pseudo-entries — the injected metadata pseudo-file also appears — and never
`b.txt`. -/
theorem ufdr_c4_readdir_children :
    (∀ (st : UFDRState) (path : PyStr),
      (readdir st path).Nodup ∧
      ∀ n, n ∈ readdir st path ↔
        n = pstr "." ∨ n = pstr ".." ∨
        (n.contains '/' = false ∧ dirPre path ++ n ≠ path ∧
          (dirPre path ++ n ∈ st.dirs ∨ dirPre path ++ n ∈ st.files_info.map Prod.fst))) ∧
    parseUFDR testC testE = .ok testState ∧
    readdir testState (pstr "/") =
      [pstr ".", pstr "..", pstr "a", pstr "c.txt", pstr "metadata.xml"] := by
  refine ⟨fun st path => ⟨nodup_readdir st path, fun n => mem_readdir⟩, by decide, by decide⟩

/-! ### Claim C5 -/

/-- C5 counterexample: the claim states that a read on a directory path fails
with `IsADirectory`, distinguished from an unknown path.  On the fixture
state, `/a` resolves to a directory, yet reading it fails with `ENOENT` — the
very error of an unknown path — and not with `EISDIR`. -/
theorem ufdr_c5_counterexample :
    parseUFDR testC testE = .ok testState ∧
    getattr testState (pstr "/a") = .ok mkDirStat ∧
    fsRead testState (pstr "/a") 10 0 = .error .enoent ∧
    Errno.enoent ≠ Errno.eisdir := by
  exact ⟨by decide, by decide, by decide, by decide⟩

/-- C5 (amended): for every built mount state, `read` either returns bytes
(the path is a key of the file map) or fails with `NotFound`; every path
outside the file map — a directory path just like an unknown one — fails
with `NotFound`, so directory reads are not distinguished and `IsADirectory`
is never produced. -/
theorem ufdr_c5_read_errors (c : Bytes) (e : List Entry) (st : UFDRState)
    (h : parseUFDR c e = .ok st) (p : PyStr) (sz off : Nat) :
    ((∃ bs, fsRead st p sz off = .ok bs) ∨ fsRead st p sz off = .error .enoent) ∧
    (dictGet st.files_info p = none → fsRead st p sz off = .error .enoent) := by
  constructor
  · cases hg : dictGet st.files_info p with
    | none =>
      right
      unfold fsRead
      rw [hg]
    | some fi =>
      exact Or.inl ⟨_, fsRead_eq_backing h hg sz off⟩
  · intro hg
    unfold fsRead
    rw [hg]

/-- Witness for C5: an unknown path yields `NotFound` on the fixture state. -/
theorem ufdr_c5_witness :
    ((∃ bs, fsRead testState (pstr "/nope") 4 0 = .ok bs) ∨
      fsRead testState (pstr "/nope") 4 0 = .error .enoent) ∧
    fsRead testState (pstr "/nope") 4 0 = .error .enoent := by
  have h := ufdr_c5_read_errors testC testE testState (by decide) (pstr "/nope") 4 0
  exact ⟨h.1, h.2 (by decide)⟩

/-! ### Claim C6 -/

/-- C6 counterexample: the claim states that an open with write-intent flags
fails with `ReadOnlyViolation` on every path.  `UFDRMount.open` never
inspects its flags: opening the metadata pseudo-file with `O_WRONLY`
succeeds with the dummy handle instead of failing. -/
theorem ufdr_c6_counterexample :
    parseUFDR testC testE = .ok testState ∧
    O_WRONLY &&& (O_WRONLY ||| O_RDWR) ≠ 0 ∧
    ufdrOpen testState metadataPath O_WRONLY = .ok 0 ∧
    ufdrOpen testState metadataPath O_WRONLY ≠ .error .eacces := by
  exact ⟨by decide, by decide, by decide, by decide⟩

/-- C6 (amended): `ZipFS.open` rejects every open carrying a write-intent
flag with `EACCES` (`ReadOnlyViolation`), for every path; `UFDRMount.open`
ignores its flags and returns the dummy handle for every indexed path,
leaving write protection to the read-only mount option; and every object
reported by `UFDRMount.getattr` carries read-only permission bits (no write
bit set in its mode). -/
theorem ufdr_c6_read_only :
    (∀ (z : ZipFSState) (p : PyStr) (flags : Nat),
      flags &&& (O_WRONLY ||| O_RDWR) ≠ 0 → zipfsOpen z p flags = .error .eacces) ∧
    (∀ (st : UFDRState) (p : PyStr) (flags : Nat),
      ((dictGet st.files_info p).isSome ∨ p ∈ st.dirs) → ufdrOpen st p flags = .ok 0) ∧
    (∀ (st : UFDRState) (p : PyStr) (s : Stat),
      getattr st p = .ok s → s.mode &&& 0o222 = 0) := by
  refine ⟨?_, ?_, ?_⟩
  · intro z p flags hf
    unfold zipfsOpen
    rw [if_pos hf]
  · intro st p flags hk
    unfold ufdrOpen
    rw [if_pos hk]
  · intro st p s hs
    unfold getattr at hs
    by_cases h1 : p = pstr "/"
    · rw [if_pos h1] at hs
      injection hs with hs
      subst hs
      rfl
    · rw [if_neg h1] at hs
      by_cases h2 : p ∈ st.dirs
      · rw [if_pos h2] at hs
        injection hs with hs
        subst hs
        rfl
      · rw [if_neg h2] at hs
        cases hg : dictGet st.files_info p with
        | none => rw [hg] at hs; cases hs
        | some fi =>
          rw [hg] at hs
          injection hs with hs
          subst hs
          show (0o100444 : Nat) &&& 0o222 = 0
          decide

/-- Witness for C6: a write-intent `ZipFS` open fails with `EACCES`, the
fixture metadata file opens with the dummy handle, and its reported stat has
no write bit. -/
theorem ufdr_c6_witness :
    zipfsOpen ⟨[]⟩ (pstr "/x.txt") O_WRONLY = .error .eacces ∧
    ufdrOpen testState metadataPath O_WRONLY = .ok 0 ∧
    (mkFileStat 3).mode &&& 0o222 = 0 := by
  refine ⟨ufdr_c6_read_only.1 ⟨[]⟩ (pstr "/x.txt") O_WRONLY (by decide),
    ufdr_c6_read_only.2.1 testState metadataPath O_WRONLY (by decide),
    ufdr_c6_read_only.2.2 testState metadataPath (mkFileStat 3) (by decide)⟩

/-! ### Claim C7 -/

/-- C7: `_parse_ufdr` scans only the fixed 16384-byte lookahead window.  When
no full signature occurrence lies in that window — even if one occurs later
in the container, since `sigWithin` constrains the window alone — parsing
fails with the no-signature error and no state is ever constructed; when an
occurrence lies in the window, parsing succeeds and the recorded offset is
the first such occurrence (an occurrence itself, and at most every other
one). -/
theorem ufdr_c7_signature_window (c : Bytes) (e : List Entry) :
    ((∀ i, ¬ sigWithin c i) → parseUFDR c e = .error .noZipSignature) ∧
    (∀ i, sigWithin c i →
      ∃ st, parseUFDR c e = .ok st ∧ st.zip_offset ≤ i ∧ sigWithin c st.zip_offset) := by
  constructor
  · intro hno
    unfold parseUFDR
    cases hf : findFrom zipSig (c.take 16384) with
    | none => rfl
    | some k => exact absurd (findFrom_some hf).1 (hno k)
  · intro i hi
    cases hf : findFrom zipSig (c.take 16384) with
    | none => exact absurd hi (findFrom_none hf i)
    | some k =>
      obtain ⟨h1, h2⟩ := findFrom_some hf
      have hok : parseUFDR c e =
          .ok ⟨k, (c.take 16384).take k,
            dictInsert (buildFiles e) metadataPath
              ⟨none, ((c.take 16384).take k).length, true⟩,
            buildDirs e, e⟩ := by
        unfold parseUFDR
        rw [hf]
      exact ⟨_, hok, h2 i hi, h1⟩

/-- Witness for C7: a container with no signature anywhere fails, and the
fixture container with the signature at offset 3 of the window parses with
that offset. -/
theorem ufdr_c7_witness :
    parseUFDR ([1, 2, 3] : Bytes) [] = .error .noZipSignature ∧
    (∃ st, parseUFDR testC testE = .ok st ∧ st.zip_offset ≤ 3 ∧
      sigWithin testC st.zip_offset) := by
  constructor
  · refine (ufdr_c7_signature_window [1, 2, 3] []).1 ?_
    intro i hp
    unfold sigWithin at hp
    have hl := hp.length_le
    rw [List.length_drop] at hl
    have ht : (([1, 2, 3] : Bytes).take 16384) = [1, 2, 3] := by decide
    rw [ht] at hl
    simp [zipSig] at hl
    omega
  · exact (ufdr_c7_signature_window testC testE).2 3 (by decide)

/-! ### Claim C8 -/

/-- C8: when the signature is a prefix of the container (offset 0), parsing
succeeds, the metadata buffer is empty, and the `/metadata.xml` pseudo-file
is still injected into the index with size 0 — never omitted. -/
theorem ufdr_c8_offset_zero (c : Bytes) (e : List Entry) (hsig : zipSig <+: c) :
    ∃ st, parseUFDR c e = .ok st ∧ st.zip_offset = 0 ∧ st.xml_data = [] ∧
      dictGet st.files_info metadataPath = some ⟨none, 0, true⟩ := by
  have hpre : zipSig <+: c.take 16384 := by
    obtain ⟨t, rfl⟩ := hsig
    rw [List.take_append_eq_append_take,
      List.take_of_length_le (l := zipSig) (by decide)]
    exact List.prefix_append ..
  have hf : findFrom zipSig (c.take 16384) = some 0 := by
    cases hc : c.take 16384 with
    | nil =>
      have hl := hpre.length_le
      rw [hc] at hl
      simp [zipSig] at hl
    | cons b t =>
      unfold findFrom
      rw [if_pos (List.isPrefixOf_iff_prefix.2 (hc ▸ hpre))]
  have hok : parseUFDR c e =
      .ok ⟨0, (c.take 16384).take 0,
        dictInsert (buildFiles e) metadataPath
          ⟨none, ((c.take 16384).take 0).length, true⟩,
        buildDirs e, e⟩ := by
    unfold parseUFDR
    rw [hf]
  exact ⟨_, hok, rfl, rfl, dictGet_insert_self ..⟩

/-- Witness for C8: a container that opens directly with the signature still
exposes the metadata pseudo-file, with size 0. -/
theorem ufdr_c8_witness :
    zipSig <+: ([80, 75, 3, 4, 9] : Bytes) ∧
    ∃ st, parseUFDR ([80, 75, 3, 4, 9] : Bytes) testE = .ok st ∧
      st.zip_offset = 0 ∧ st.xml_data = [] ∧
      dictGet st.files_info metadataPath = some ⟨none, 0, true⟩ :=
  ⟨⟨[9], rfl⟩, ufdr_c8_offset_zero [80, 75, 3, 4, 9] testE ⟨[9], rfl⟩⟩

/-! ### Claim C9 -/

/-- C9: `read` is stateless and idempotent — the method body assigns nothing
to the mount state (each call reopens the container afresh), so a read leaves
the state unchanged, and a read repeated after any prior sequence of reads
returns exactly the same result as when issued first. -/
theorem ufdr_c9_read_idempotent (st : UFDRState) (p : PyStr) (sz off : Nat)
    (prior : List (PyStr × Nat × Nat)) :
    (readCall (prior.foldl (fun s q => (readCall s q).2) st) (p, sz, off)).1 =
      (readCall st (p, sz, off)).1 ∧
    (readCall st (p, sz, off)).2 = st := by
  have hfold : ∀ (l : List (PyStr × Nat × Nat)) (s : UFDRState),
      l.foldl (fun s q => (readCall s q).2) s = s := by
    intro l
    induction l with
    | nil => intro s; rfl
    | cons q l ih =>
      intro s
      rw [List.foldl_cons]
      exact ih s
  rw [hfold]
  exact ⟨rfl, rfl⟩

/-! ### Claim C10 -/

/-- C10: even when the archive itself holds a file entry named
`metadata.xml`, the built index maps `/metadata.xml` to the injected
pseudo-file — marker set, no archive name, size equal to the container
prefix length — because the injection runs after the whole entry loop and
Python dict assignment overwrites the archive record; reads of the path are
served from the held prefix bytes, not from the archive entry. -/
theorem ufdr_c10_metadata_precedence (c : Bytes) (e : List Entry) (st : UFDRState)
    (h : parseUFDR c e = .ok st)
    (_hin : ∃ en, en ∈ e ∧ ¬isDirEntry en ∧ en.filename = pstr "metadata.xml") :
    dictGet st.files_info metadataPath = some ⟨none, st.xml_data.length, true⟩ ∧
    st.xml_data = (c.take 16384).take st.zip_offset ∧
    ∀ sz off, fsRead st metadataPath sz off = .ok ((st.xml_data.drop off).take sz) := by
  obtain ⟨hf, hx, hfi, hd, he⟩ := parseUFDR_ok h
  have hget : dictGet st.files_info metadataPath =
      some ⟨none, st.xml_data.length, true⟩ := by
    rw [hfi]
    exact dictGet_insert_self ..
  refine ⟨hget, hx, fun sz off => ?_⟩
  unfold fsRead
  rw [hget]
  rfl

/-- Witness for C10: the fixture archive holding a 5-byte file entry named
`metadata.xml` still maps `/metadata.xml` to the injected 3-byte pseudo-file
and serves reads from the prefix bytes. -/
theorem ufdr_c10_witness :
    dictGet mdState.files_info metadataPath =
      some ⟨none, mdState.xml_data.length, true⟩ ∧
    fsRead mdState metadataPath 2 1 = .ok ((mdState.xml_data.drop 1).take 2) := by
  have h := ufdr_c10_metadata_precedence testC mdE mdState (by decide)
    ⟨⟨pstr "metadata.xml", [7, 7, 7, 7, 7]⟩, by decide, by decide, rfl⟩
  exact ⟨h.1, h.2.2 2 1⟩
